import Mathlib

/-!
Verification of the reactive triple store (`TripleStore`) against its
specification.

The embedding translates the TypeScript class `TripleStore` into pure Lean
definitions:

* JavaScript `Map` objects (the three field indices and the sparse
  `triples` array keyed by numeric identifier) become association lists
  with `mlookup` / `mset`; `mset` mirrors `Map.set` (update in place for an
  existing key, append for a new one).  The in-place mutation `set.add(id)`
  of a shared index set followed by the conditional `map.set` is translated
  as an unconditional `mset` of the grown set, which has the same effect on
  the map's contents in both branches.
* JavaScript `Set<number>` values become `Finset ℕ`.
* The class-static counter `TripleStore.NEXT_ID` is process-global, not a
  field of the store, so it is threaded through `addTriple` as an explicit
  argument and result rather than stored in the `TripleStore` structure.
* `findInIndices` in the source returns the matching identifier or `-1`;
  both call sites (`has`, `addTriple`) only test the result against `-1`,
  so it is embedded as the `Bool` saying whether a match was found.
* The four `stream.next(...)` calls performed by a successful `addTriple`
  are recorded as an explicit list of `Emission` values, in program order.
* Field values are drawn from an arbitrary type with decidable equality;
  this identifies JS `Map`-key equality (SameValueZero) with the structural
  `equiv` used in `findInIndices`, which agree on the primitive values the
  store is used with.

The reactive-stream collaborators (`sync`, subscription replay, the
natural `join` of @thi.ng/associative, `isQVar` / `qvarResolver`) are not
part of the source files of this core; where a claim depends on them they
are modelled from the specification and marked as such in their doc
comments.
-/

/-- A fact: an ordered triple (subject, predicate, object). -/
abbrev Triple (α : Type) : Type := α × α × α

/-- Association-list lookup, embedding JS `Map.get` (returns `undefined`,
i.e. `none`, for an absent key). -/
def mlookup {κ β : Type} [DecidableEq κ] : List (κ × β) → κ → Option β
  | [], _ => none
  | (k, v) :: rest, k' => if k' = k then some v else mlookup rest k'

/-- Association-list update, embedding JS `Map.set`: replaces the value of
an existing key in place, appends a new key at the end. -/
def mset {κ β : Type} [DecidableEq κ] : List (κ × β) → κ → β → List (κ × β)
  | [], k, v => [(k, v)]
  | (k0, v0) :: rest, k, v =>
      if k = k0 then (k0, v) :: rest else (k0, v0) :: mset rest k v

/-- The set of fact identifiers stored under a field value. -/
abbrev TripleIds : Type := Finset ℕ

/-- The nested size comparison of `findInIndices`, selecting which of the
three candidate identifier sets to scan (translated literally from the
conditional expression in the source). -/
def selectMin (s p o : TripleIds) : TripleIds :=
  if s.card < p.card then
    if s.card < o.card then s else if p.card < o.card then p else o
  else
    if p.card < o.card then p else if s.card < o.card then s else o

/-- `TripleStore.findInIndices`: given the three index lookups for a
triple's fields, scan the smallest candidate set for a structurally equal
stored triple.  Returns whether a match was found (the source returns the
identifier or `-1`; both call sites only test for `-1`). -/
def findInIndices {α : Type} [DecidableEq α]
    (triples : List (ℕ × Triple α)) (s p o : Option TripleIds)
    (f : Triple α) : Bool :=
  match s, p, o with
  | some s, some p, some o =>
      decide (∃ id ∈ selectMin s p o, mlookup triples id = some f)
  | _, _, _ => false

/-- One `stream.next` call performed by `addTriple`: the global channel
carries the full identifier set, each field channel carries an
`Edit = { index, key }` record. -/
inductive Emission (α : Type) : Type
  | all (ids : TripleIds)
  | editS (index : TripleIds) (key : α)
  | editP (index : TripleIds) (key : α)
  | editO (index : TripleIds) (key : α)
deriving DecidableEq

/-- The state of one `TripleStore` instance: the sparse triple table keyed
by identifier, the three field indices, and the global identifier set.
(The class-static counter `NEXT_ID` is process state, threaded separately.) -/
structure TripleStore (α : Type) : Type where
  triples : List (ℕ × Triple α)
  indexS : List (α × TripleIds)
  indexP : List (α × TripleIds)
  indexO : List (α × TripleIds)
  allIDs : TripleIds
deriving DecidableEq

/-- The freshly constructed (empty) store. -/
def TripleStore.empty {α : Type} : TripleStore α :=
  { triples := [], indexS := [], indexP := [], indexO := [], allIDs := ∅ }

/-- Result of an `addTriple` call: the returned boolean, the store state
after the call, the process-global `NEXT_ID` after the call, and the
stream emissions performed, in order. -/
structure AddResult (α : Type) : Type where
  ok : Bool
  store : TripleStore α
  nextID : ℕ
  emits : List (Emission α)
deriving DecidableEq

/-- `TripleStore.has`: membership test via `findInIndices` on the three
field-index lookups. -/
def TripleStore.has {α : Type} [DecidableEq α]
    (g : TripleStore α) (f : Triple α) : Bool :=
  findInIndices g.triples
    (mlookup g.indexS f.1) (mlookup g.indexP f.2.1) (mlookup g.indexO f.2.2) f

/-- `TripleStore.addTriple`, with the class-static counter `NEXT_ID` passed
in as `nextID`.  Returns `false` without any mutation or emission when an
equal triple is found in the indices; otherwise assigns `id := nextID`,
stores the triple, grows the three field-index sets and the global set,
and emits on the four channels in program order. -/
def TripleStore.addTriple {α : Type} [DecidableEq α]
    (g : TripleStore α) (nextID : ℕ) (t : Triple α) : AddResult α :=
  let s := mlookup g.indexS t.1
  let p := mlookup g.indexP t.2.1
  let o := mlookup g.indexO t.2.2
  if findInIndices g.triples s p o t then
    { ok := false, store := g, nextID := nextID, emits := [] }
  else
    let id := nextID
    let is := insert id (s.getD ∅)
    let ip := insert id (p.getD ∅)
    let io := insert id (o.getD ∅)
    let allIDs := insert id g.allIDs
    { ok := true
      store :=
        { triples := mset g.triples id t
          indexS := mset g.indexS t.1 is
          indexP := mset g.indexP t.2.1 ip
          indexO := mset g.indexO t.2.2 io
          allIDs := allIDs }
      nextID := id + 1
      emits :=
        [Emission.all allIDs,
         Emission.editS is t.1,
         Emission.editP ip t.2.1,
         Emission.editO io t.2.2] }

/-- A structurally equal triple is stored (at some identifier). -/
def stored {α : Type} [DecidableEq α] (g : TripleStore α) (t : Triple α) : Prop :=
  ∃ id, mlookup g.triples id = some t

/-- Consistency of one field index with the triple table: a key maps to
exactly the identifiers of stored triples whose field equals the key, and
absent keys have no stored triple with that field value. -/
def IdxOK {α : Type} [DecidableEq α] (triples : List (ℕ × Triple α))
    (idx : List (α × TripleIds)) (fld : Triple α → α) : Prop :=
  (∀ v S, mlookup idx v = some S →
      ∀ id, id ∈ S ↔ ∃ u, mlookup triples id = some u ∧ fld u = v) ∧
  (∀ v, mlookup idx v = none →
      ∀ id u, mlookup triples id = some u → fld u ≠ v)

/-- Store invariant (holds for every state reachable by `addTriple` calls
from a fresh store, relative to the current value `n` of the process
counter): all stored identifiers are below the counter, the global set is
exactly the domain of the triple table, and the three field indices are
consistent with the table. -/
structure WF {α : Type} [DecidableEq α] (g : TripleStore α) (n : ℕ) : Prop where
  dom_lt : ∀ id u, mlookup g.triples id = some u → id < n
  all_iff : ∀ id, id ∈ g.allIDs ↔ ∃ u, mlookup g.triples id = some u
  idxS : IdxOK g.triples g.indexS (fun t => t.1)
  idxP : IdxOK g.triples g.indexP (fun t => t.2.1)
  idxO : IdxOK g.triples g.indexO (fun t => t.2.2)

/-- A store state produced by one insertion into a fresh store, used to
instantiate universally quantified theorems at a concrete input. -/
def exampleStore : TripleStore ℕ :=
  ((TripleStore.empty (α := ℕ)).addTriple 0 (0, 1, 2)).store

/-- The xform of the pattern-query combinator, from
`map(({s, p, o}) => intersection(intersection(s, p), o))`: the inner
`intersection` call combines the subject and predicate selections, the
outer one intersects that result with the object selection. -/
def patternXform (s p o : TripleIds) : TripleIds := (s ∩ p) ∩ o

/-- The pair of arguments handed to the inner `intersection` call of the
pattern-query xform, read off the source expression
`intersection(intersection(s, p), o)`: always the subject and predicate
selections, regardless of their sizes. -/
def patternXformInnerArgs (s p _o : TripleIds) : TripleIds × TripleIds := (s, p)

/-- Modelled from the spec: "intersect the two smallest sets first" — of
the three candidate sets, the pair left after removing a largest one. -/
def smallestPairFirstArgs (s p o : TripleIds) : TripleIds × TripleIds :=
  if p.card ≤ s.card ∧ o.card ≤ s.card then (p, o)
  else if o.card ≤ p.card then (s, o)
  else (s, p)

/-- Modelled from the spec: the state of the three-source synchronizing
combinator — the latest known value from each per-field source. -/
structure SyncState : Type where
  ls : Option TripleIds
  lp : Option TripleIds
  lo : Option TripleIds
deriving DecidableEq

/-- The three per-field source channels of a pattern query. -/
inductive Chan : Type
  | chS
  | chP
  | chO
deriving DecidableEq

/-- Modelled from the spec: record the latest value from the emitting
source. -/
def syncUpdate (st : SyncState) (c : Chan) (v : TripleIds) : SyncState :=
  match c with
  | Chan.chS => { st with ls := some v }
  | Chan.chP => { st with lp := some v }
  | Chan.chO => { st with lo := some v }

/-- Modelled from the spec: the combinator's output for a given state —
once every source has delivered a value, the recomputed xform of the
latest values; before that, nothing. -/
def syncEmit (st : SyncState) : Option TripleIds :=
  match st.ls, st.lp, st.lo with
  | some a, some b, some c => some (patternXform a b c)
  | _, _, _ => none

/-- Modelled from the spec: one step of the synchronizing combinator — on
an emission of value `v` from source `c`, record it and recompute. -/
def syncStep (st : SyncState) (c : Chan) (v : TripleIds) :
    SyncState × Option TripleIds :=
  (syncUpdate st c v, syncEmit (syncUpdate st c v))

/-- Modelled from the spec: the cached value each sync source replays when
the combinator is wired.  A wildcard field's source is the store's cached
subscription of the global channel, whose latest value is the full
identifier set once any insertion has emitted (the global set is nonempty
exactly on such states); a freshly created per-key selection for a
concrete field has no cached value — the explicit `submit` replay below
supplies it. -/
def initialLast {α : Type} (g : TripleStore α) (key : Option α) :
    Option TripleIds :=
  match key with
  | none => if g.allIDs = ∅ then none else some g.allIDs
  | some _ => none

/-- The replay helper `submit` of `addPatternQuery`: for a concrete key
whose value has an index entry, push the current index set into the
corresponding sync source; wildcard keys and keys without an index entry
are skipped. -/
def submitStep {α : Type} [DecidableEq α] (index : List (α × TripleIds))
    (st : SyncState) (c : Chan) (key : Option α) :
    SyncState × Option TripleIds :=
  match key with
  | none => (st, none)
  | some k =>
      match mlookup index k with
      | none => (st, none)
      | some ids => syncStep st c ids

/-- The wiring-plus-replay phase of `addPatternQuery` for a pattern with
at least one concrete field: each source starts from its cached value,
then the three replay pushes run in the order subject, predicate, object;
returns the final sync state and the values emitted during replay. -/
def addPatternQueryInit {α : Type} [DecidableEq α] (g : TripleStore α)
    (ps pp po : Option α) : SyncState × List TripleIds :=
  let st0 : SyncState := ⟨initialLast g ps, initialLast g pp, initialLast g po⟩
  let r1 := submitStep g.indexS st0 Chan.chS ps
  let r2 := submitStep g.indexP r1.1 Chan.chP pp
  let r3 := submitStep g.indexO r2.1 Chan.chO po
  (r3.1, [r1.2, r2.2, r3.2].reduceOption)

/-- One pattern field matches a triple field: a wildcard matches anything,
a concrete key matches exactly itself. -/
def matchB {α : Type} [DecidableEq α] (key : Option α) (v : α) : Bool :=
  match key with
  | none => true
  | some k => decide (v = k)

/-- A triple matches an SPO pattern when each field matches. -/
def matchesPatB {α : Type} [DecidableEq α] (ps pp po : Option α)
    (t : Triple α) : Bool :=
  matchB ps t.1 && matchB pp t.2.1 && matchB po t.2.2

/-- The identifiers of the stored facts matching a pattern. -/
def matchingIds {α : Type} [DecidableEq α] (g : TripleStore α)
    (ps pp po : Option α) : TripleIds :=
  g.allIDs.filter (fun id =>
    (match mlookup g.triples id with
     | some u => matchesPatB ps pp po u
     | none => false) = true)

/-- The current value carried by the sync source for one field: the
global identifier set for a wildcard, the field index entry for a
concrete key. -/
def fieldVal {α : Type} [DecidableEq α] (idx : List (α × TripleIds))
    (allIDs : TripleIds) (key : Option α) : Option TripleIds :=
  match key with
  | none => some allIDs
  | some k => mlookup idx k

/-- A solution: a binding record from query-variable names to bound
values, as an association list. -/
abbrev Sol (α : Type) : Type := List (String × α)

/-- Modelled from the spec: two binding records are compatible when every
variable name bound in both records is bound to equal values. -/
def compatibleSol {α : Type} [DecidableEq α] (a b : Sol α) : Bool :=
  a.all (fun kv =>
    match mlookup b kv.1 with
    | none => true
    | some v => decide (kv.2 = v))

/-- Modelled from the spec: merge two compatible binding records into one
record — the bindings of the first, plus those bindings of the second
whose names the first does not bind. -/
def mergeSol {α : Type} [DecidableEq α] (a b : Sol α) : Sol α :=
  a ++ b.filter (fun kv => (mlookup a kv.1).isNone)

/-- Modelled from the spec: the natural join of two solution sets — one
merged record per compatible pair. -/
def natJoin {α : Type} [DecidableEq α] (A B : Finset (Sol α)) :
    Finset (Sol α) :=
  ((A ×ˢ B).filter (fun ab => compatibleSol ab.1 ab.2 = true)).image
    (fun ab => mergeSol ab.1 ab.2)

/-- The xform of the join combinator, from
`comp(map(({a, b}) => join(a, b)), filter((x) => x.size > 0))`: compute
the natural join of the two latest solution sets; the size filter
suppresses empty results entirely. -/
def joinXform {α : Type} [DecidableEq α] (A B : Finset (Sol α)) :
    Option (Finset (Sol α)) :=
  let j := natJoin A B
  if 0 < j.card then some j else none

/-- Modelled from the spec: the state of the two-source join combinator —
the latest solution set from each side. -/
structure JoinState (α : Type) : Type where
  la : Option (Finset (Sol α))
  lb : Option (Finset (Sol α))
deriving DecidableEq

/-- The two sides of a query join. -/
inductive JSide : Type
  | ja
  | jb
deriving DecidableEq

/-- Modelled from the spec: one step of the join combinator — on an
update from either side, record it and recompute the join of the latest
solution sets once both sides have delivered. -/
def joinStep {α : Type} [DecidableEq α] (st : JoinState α) (side : JSide)
    (v : Finset (Sol α)) : JoinState α × Option (Finset (Sol α)) :=
  let st' : JoinState α :=
    match side with
    | JSide.ja => { st with la := some v }
    | JSide.jb => { st with lb := some v }
  (st',
   match st'.la, st'.lb with
   | some A, some B => joinXform A B
   | _, _ => none)

/-- Modelled from the spec: `isQVar` — query variables are the strings
carrying the reserved `?` marker as their first character (wildcards and
non-string-marked values are not variables).  The source's `isQVar` is not
among the source files; this follows the documented "strings with `?`
prefix" contract. -/
def isQVar (f : Option String) : Bool :=
  match f with
  | some s => decide (s.data.head? = some '?')
  | none => false

/-- Modelled from the spec: `qvarResolver` — yields nothing when the
pattern holds no query variable, otherwise the function mapping a matching
triple to the binding record that binds each variable name (marker
stripped) to the triple's corresponding field value. -/
def qvarResolver (vs vp vo : Bool) (s p o : Option String) :
    Option (Triple String → Sol String) :=
  if vs || vp || vo then
    some (fun t =>
      (if vs then [((s.getD "").drop 1, t.1)] else []) ++
      (if vp then [((p.getD "").drop 1, t.2.1)] else []) ++
      (if vo then [((o.getD "").drop 1, t.2.2)] else []))
  else none

/-- The construction-time phase of `addParamQuery`: detect the query
variables, build the resolver, fail with the `illegalArgs` error when
there is none, and otherwise return the wildcard-substituted underlying
pattern together with the resolver (the stream wiring of the raw pattern
query happens only in the success case). -/
def addParamQuery (s p o : Option String) :
    Except String ((Option String × Option String × Option String) ×
      (Triple String → Sol String)) :=
  let vs := isQVar s
  let vp := isQVar p
  let vo := isQVar o
  match qvarResolver vs vp vo s p o with
  | none => Except.error "at least 1 query variable is required in pattern"
  | some resolve =>
      Except.ok
        ((if vs then none else s, if vp then none else p,
          if vo then none else o), resolve)

theorem mlookup_mset_self {κ β : Type} [DecidableEq κ]
    (m : List (κ × β)) (k : κ) (v : β) : mlookup (mset m k v) k = some v := by
  induction m with
  | nil => simp [mset, mlookup]
  | cons hd tl ih =>
      obtain ⟨k0, v0⟩ := hd
      by_cases h : k = k0
      · simp [mset, h, mlookup]
      · simp [mset, h, mlookup, ih]

theorem mlookup_mset_ne {κ β : Type} [DecidableEq κ]
    (m : List (κ × β)) (k k' : κ) (v : β) (h : k' ≠ k) :
    mlookup (mset m k v) k' = mlookup m k' := by
  induction m with
  | nil => simp [mset, mlookup, h]
  | cons hd tl ih =>
      obtain ⟨k0, v0⟩ := hd
      by_cases hk : k = k0
      · subst hk
        simp [mset, mlookup, h]
      · by_cases hk' : k' = k0 <;> simp [mset, hk, mlookup, hk', ih]

theorem wf_empty {α : Type} [DecidableEq α] (n : ℕ) :
    WF (TripleStore.empty (α := α)) n := by
  constructor <;>
    simp [TripleStore.empty, mlookup, IdxOK]

theorem selectMin_eq_or (s p o : TripleIds) :
    selectMin s p o = s ∨ selectMin s p o = p ∨ selectMin s p o = o := by
  unfold selectMin
  split_ifs <;> simp

theorem selectMin_card_le (s p o : TripleIds) :
    (selectMin s p o).card ≤ s.card ∧ (selectMin s p o).card ≤ p.card ∧
      (selectMin s p o).card ≤ o.card := by
  unfold selectMin
  split_ifs <;> refine ⟨?_, ?_, ?_⟩ <;> omega

theorem findInIndices_stored {α : Type} [DecidableEq α]
    {triples : List (ℕ × Triple α)} {s p o : Option TripleIds} {f : Triple α}
    (h : findInIndices triples s p o f = true) :
    ∃ id, mlookup triples id = some f := by
  match s, p, o with
  | some s, some p, some o =>
      simp only [findInIndices, decide_eq_true_eq] at h
      obtain ⟨id, _, hid⟩ := h
      exact ⟨id, hid⟩
  | none, _, _ => simp [findInIndices] at h
  | some _, none, _ => simp [findInIndices] at h
  | some _, some _, none => simp [findInIndices] at h

theorem stored_has {α : Type} [DecidableEq α] {g : TripleStore α} {n : ℕ}
    {t : Triple α} (hwf : WF g n) (hst : stored g t) : g.has t = true := by
  obtain ⟨i, hi⟩ := hst
  have hs : ∃ Ss, mlookup g.indexS t.1 = some Ss ∧ i ∈ Ss := by
    cases h : mlookup g.indexS t.1 with
    | none => exact absurd rfl (hwf.idxS.2 t.1 h i t hi)
    | some Ss => exact ⟨Ss, rfl, (hwf.idxS.1 t.1 Ss h i).mpr ⟨t, hi, rfl⟩⟩
  have hp : ∃ Sp, mlookup g.indexP t.2.1 = some Sp ∧ i ∈ Sp := by
    cases h : mlookup g.indexP t.2.1 with
    | none => exact absurd rfl (hwf.idxP.2 t.2.1 h i t hi)
    | some Sp => exact ⟨Sp, rfl, (hwf.idxP.1 t.2.1 Sp h i).mpr ⟨t, hi, rfl⟩⟩
  have ho : ∃ So, mlookup g.indexO t.2.2 = some So ∧ i ∈ So := by
    cases h : mlookup g.indexO t.2.2 with
    | none => exact absurd rfl (hwf.idxO.2 t.2.2 h i t hi)
    | some So => exact ⟨So, rfl, (hwf.idxO.1 t.2.2 So h i).mpr ⟨t, hi, rfl⟩⟩
  obtain ⟨Ss, hSs, hiS⟩ := hs
  obtain ⟨Sp, hSp, hiP⟩ := hp
  obtain ⟨So, hSo, hiO⟩ := ho
  have hmem : i ∈ selectMin Ss Sp So := by
    rcases selectMin_eq_or Ss Sp So with h | h | h <;> rw [h] <;> assumption
  simp only [TripleStore.has, hSs, hSp, hSo, findInIndices, decide_eq_true_eq]
  exact ⟨i, hmem, hi⟩

theorem has_iff_stored {α : Type} [DecidableEq α] {g : TripleStore α} {n : ℕ}
    {t : Triple α} (hwf : WF g n) : g.has t = true ↔ stored g t :=
  ⟨fun h => findInIndices_stored h, fun h => stored_has hwf h⟩

theorem IdxOK_update {α : Type} [DecidableEq α]
    {triples : List (ℕ × Triple α)} {idx : List (α × TripleIds)}
    {fld : Triple α → α} {n : ℕ} {t : Triple α}
    (hdom : ∀ id u, mlookup triples id = some u → id < n)
    (h : IdxOK triples idx fld) :
    IdxOK (mset triples n t)
      (mset idx (fld t) (insert n ((mlookup idx (fld t)).getD ∅))) fld := by
  constructor
  · intro v S hS id
    by_cases hv : v = fld t
    · subst hv
      rw [mlookup_mset_self] at hS
      injection hS with hS
      subst hS
      constructor
      · intro hid
        rcases Finset.mem_insert.mp hid with hid | hid
        · subst hid
          exact ⟨t, mlookup_mset_self _ _ _, rfl⟩
        · cases hold : mlookup idx (fld t) with
          | none => rw [hold] at hid; simp at hid
          | some S0 =>
              rw [hold] at hid
              obtain ⟨u, hu, hflu⟩ := (h.1 (fld t) S0 hold id).mp hid
              have hne : id ≠ n := Nat.ne_of_lt (hdom id u hu)
              exact ⟨u, by rw [mlookup_mset_ne _ _ _ _ hne]; exact hu, hflu⟩
      · rintro ⟨u, hu, hflu⟩
        by_cases hid : id = n
        · subst hid; exact Finset.mem_insert_self _ _
        · rw [mlookup_mset_ne _ _ _ _ hid] at hu
          cases hold : mlookup idx (fld t) with
          | none => exact absurd hflu (h.2 (fld t) hold id u hu)
          | some S0 =>
              refine Finset.mem_insert_of_mem ?_
              simp only [Option.getD_some]
              exact (h.1 (fld t) S0 hold id).mpr ⟨u, hu, hflu⟩
    · rw [mlookup_mset_ne _ _ _ _ hv] at hS
      constructor
      · intro hid
        obtain ⟨u, hu, hflu⟩ := (h.1 v S hS id).mp hid
        have hne : id ≠ n := Nat.ne_of_lt (hdom id u hu)
        exact ⟨u, by rw [mlookup_mset_ne _ _ _ _ hne]; exact hu, hflu⟩
      · rintro ⟨u, hu, hflu⟩
        by_cases hid : id = n
        · subst hid
          rw [mlookup_mset_self] at hu
          injection hu with hu
          subst hu
          exact absurd hflu.symm hv
        · rw [mlookup_mset_ne _ _ _ _ hid] at hu
          exact (h.1 v S hS id).mpr ⟨u, hu, hflu⟩
  · intro v hv id u hu
    have hvne : v ≠ fld t := by
      intro hveq
      rw [hveq, mlookup_mset_self] at hv
      exact Option.noConfusion hv
    rw [mlookup_mset_ne _ _ _ _ hvne] at hv
    by_cases hid : id = n
    · subst hid
      rw [mlookup_mset_self] at hu
      injection hu with hu
      subst hu
      exact fun hc => hvne hc.symm
    · rw [mlookup_mset_ne _ _ _ _ hid] at hu
      exact h.2 v hv id u hu

theorem wf_preserved {α : Type} [DecidableEq α] {g : TripleStore α} {n : ℕ}
    {t : Triple α} (hwf : WF g n) :
    WF (g.addTriple n t).store (g.addTriple n t).nextID := by
  by_cases hf : findInIndices g.triples (mlookup g.indexS t.1)
      (mlookup g.indexP t.2.1) (mlookup g.indexO t.2.2) t = true
  · simpa [TripleStore.addTriple, hf] using hwf
  · rw [Bool.not_eq_true] at hf
    simp only [TripleStore.addTriple, hf, Bool.false_eq_true, if_false]
    constructor
    · intro id u hu
      by_cases hid : id = n
      · omega
      · rw [mlookup_mset_ne _ _ _ _ hid] at hu
        have := hwf.dom_lt id u hu
        omega
    · intro id
      by_cases hid : id = n
      · subst hid
        simp [mlookup_mset_self]
      · rw [mlookup_mset_ne _ _ _ _ hid]
        simp only [Finset.mem_insert, hid, false_or]
        exact hwf.all_iff id
    · exact IdxOK_update hwf.dom_lt hwf.idxS
    · exact IdxOK_update hwf.dom_lt hwf.idxP
    · exact IdxOK_update hwf.dom_lt hwf.idxO

theorem findInIndices_none_s {α : Type} [DecidableEq α]
    {triples : List (ℕ × Triple α)} {p o : Option TripleIds} {f : Triple α} :
    findInIndices triples none p o f = false := by
  cases p <;> cases o <;> rfl

theorem findInIndices_none_p {α : Type} [DecidableEq α]
    {triples : List (ℕ × Triple α)} {s o : Option TripleIds} {f : Triple α} :
    findInIndices triples s none o f = false := by
  cases s <;> cases o <;> rfl

theorem findInIndices_none_o {α : Type} [DecidableEq α]
    {triples : List (ℕ × Triple α)} {s p : Option TripleIds} {f : Triple α} :
    findInIndices triples s p none f = false := by
  cases s <;> cases p <;> rfl

/-- The concrete result of a successful `addTriple` (the duplicate test
came back negative). -/
theorem addTriple_eq_of_not_found {α : Type} [DecidableEq α]
    {g : TripleStore α} {n : ℕ} {t : Triple α}
    (hf : findInIndices g.triples (mlookup g.indexS t.1)
      (mlookup g.indexP t.2.1) (mlookup g.indexO t.2.2) t = false) :
    g.addTriple n t =
      { ok := true
        store :=
          { triples := mset g.triples n t
            indexS := mset g.indexS t.1 (insert n ((mlookup g.indexS t.1).getD ∅))
            indexP := mset g.indexP t.2.1 (insert n ((mlookup g.indexP t.2.1).getD ∅))
            indexO := mset g.indexO t.2.2 (insert n ((mlookup g.indexO t.2.2).getD ∅))
            allIDs := insert n g.allIDs }
        nextID := n + 1
        emits :=
          [Emission.all (insert n g.allIDs),
           Emission.editS (insert n ((mlookup g.indexS t.1).getD ∅)) t.1,
           Emission.editP (insert n ((mlookup g.indexP t.2.1).getD ∅)) t.2.1,
           Emission.editO (insert n ((mlookup g.indexO t.2.2).getD ∅)) t.2.2] } := by
  simp [TripleStore.addTriple, hf]

theorem addTriple_ok_not_found {α : Type} [DecidableEq α]
    {g : TripleStore α} {n : ℕ} {t : Triple α}
    (h : (g.addTriple n t).ok = true) :
    findInIndices g.triples (mlookup g.indexS t.1)
      (mlookup g.indexP t.2.1) (mlookup g.indexO t.2.2) t = false := by
  by_contra hf
  rw [Bool.not_eq_false] at hf
  simp [TripleStore.addTriple, hf] at h

/-- Duplicate insertion is a no-op: same record back, no emissions. -/
theorem addTriple_of_stored {α : Type} [DecidableEq α]
    {g : TripleStore α} {n : ℕ} {t : Triple α}
    (hwf : WF g n) (hst : stored g t) :
    g.addTriple n t = { ok := false, store := g, nextID := n, emits := [] } := by
  have hf := stored_has hwf hst
  rw [TripleStore.has] at hf
  simp [TripleStore.addTriple, hf]

theorem addTriple_ok_of_not_stored {α : Type} [DecidableEq α]
    {g : TripleStore α} {n : ℕ} {t : Triple α} (hnst : ¬ stored g t) :
    (g.addTriple n t).ok = true := by
  by_cases hf : findInIndices g.triples (mlookup g.indexS t.1)
      (mlookup g.indexP t.2.1) (mlookup g.indexO t.2.2) t = true
  · exact absurd (findInIndices_stored hf) hnst
  · rw [Bool.not_eq_true] at hf
    simp [TripleStore.addTriple, hf]

theorem addTriple_stored_self {α : Type} [DecidableEq α]
    {g : TripleStore α} {n : ℕ} {t : Triple α}
    (h : (g.addTriple n t).ok = true) : stored (g.addTriple n t).store t := by
  rw [addTriple_eq_of_not_found (addTriple_ok_not_found h)]
  exact ⟨n, mlookup_mset_self _ _ _⟩

theorem wf_exampleStore : WF exampleStore 1 :=
  wf_preserved (wf_empty 0)

theorem stored_exampleStore : stored exampleStore (0, 1, 2) :=
  ⟨0, rfl⟩

/-- Claim C1: a duplicate `addTriple` returns `false` and leaves the whole store
state (triple table, the three field indices, the global identifier set)
and the counter unchanged, performing no emissions; an `addTriple` of a
fresh triple returns `true`, and an immediately repeated `addTriple` of
the same triple is the no-op duplicate case. -/
theorem addTriple_idempotent_spec {α : Type} [DecidableEq α]
    (g : TripleStore α) (n : ℕ) (t : Triple α) (hwf : WF g n) :
    (stored g t →
      g.addTriple n t = { ok := false, store := g, nextID := n, emits := [] }) ∧
    (¬ stored g t → (g.addTriple n t).ok = true) ∧
    ((g.addTriple n t).ok = true →
      (g.addTriple n t).store.addTriple (g.addTriple n t).nextID t =
        { ok := false, store := (g.addTriple n t).store,
          nextID := (g.addTriple n t).nextID, emits := [] }) := by
  refine ⟨fun hst => addTriple_of_stored hwf hst,
    fun hnst => addTriple_ok_of_not_stored hnst, fun hok => ?_⟩
  exact addTriple_of_stored (wf_preserved hwf) (addTriple_stored_self hok)

theorem addTriple_idempotent_spec_witness :
    WF exampleStore 1 ∧
    ((stored exampleStore (0, 1, 2) →
      exampleStore.addTriple 1 (0, 1, 2) =
        { ok := false, store := exampleStore, nextID := 1, emits := [] }) ∧
    (¬ stored exampleStore (0, 1, 2) →
      (exampleStore.addTriple 1 (0, 1, 2)).ok = true) ∧
    ((exampleStore.addTriple 1 (0, 1, 2)).ok = true →
      (exampleStore.addTriple 1 (0, 1, 2)).store.addTriple
          (exampleStore.addTriple 1 (0, 1, 2)).nextID (0, 1, 2) =
        { ok := false, store := (exampleStore.addTriple 1 (0, 1, 2)).store,
          nextID := (exampleStore.addTriple 1 (0, 1, 2)).nextID,
          emits := [] })) :=
  ⟨wf_exampleStore,
   addTriple_idempotent_spec exampleStore 1 (0, 1, 2) wf_exampleStore⟩

/-- Claim C2: after a successful `addTriple` with assigned identifier `n`,
`has` finds the triple, and `n` is a member of the subject, predicate and
object index sets for the triple's fields and of the global set. -/
theorem addTriple_containment_spec {α : Type} [DecidableEq α]
    (g : TripleStore α) (n : ℕ) (t : Triple α)
    (hok : (g.addTriple n t).ok = true) :
    (g.addTriple n t).store.has t = true ∧
    (∃ is, mlookup (g.addTriple n t).store.indexS t.1 = some is ∧ n ∈ is) ∧
    (∃ ip, mlookup (g.addTriple n t).store.indexP t.2.1 = some ip ∧ n ∈ ip) ∧
    (∃ io, mlookup (g.addTriple n t).store.indexO t.2.2 = some io ∧ n ∈ io) ∧
    n ∈ (g.addTriple n t).store.allIDs := by
  rw [addTriple_eq_of_not_found (addTriple_ok_not_found hok)]
  refine ⟨?_, ⟨_, mlookup_mset_self _ _ _, Finset.mem_insert_self _ _⟩,
    ⟨_, mlookup_mset_self _ _ _, Finset.mem_insert_self _ _⟩,
    ⟨_, mlookup_mset_self _ _ _, Finset.mem_insert_self _ _⟩,
    Finset.mem_insert_self _ _⟩
  simp only [TripleStore.has, mlookup_mset_self, findInIndices,
    decide_eq_true_eq]
  refine ⟨n, ?_, mlookup_mset_self _ _ _⟩
  rcases selectMin_eq_or (insert n ((mlookup g.indexS t.1).getD ∅))
      (insert n ((mlookup g.indexP t.2.1).getD ∅))
      (insert n ((mlookup g.indexO t.2.2).getD ∅)) with h | h | h <;>
    rw [h] <;> exact Finset.mem_insert_self _ _

theorem addTriple_containment_spec_witness :
    ((TripleStore.empty (α := ℕ)).addTriple 0 (0, 1, 2)).ok = true ∧
    (((TripleStore.empty (α := ℕ)).addTriple 0 (0, 1, 2)).store.has (0, 1, 2) = true ∧
    (∃ is, mlookup ((TripleStore.empty (α := ℕ)).addTriple 0 (0, 1, 2)).store.indexS 0 =
        some is ∧ 0 ∈ is) ∧
    (∃ ip, mlookup ((TripleStore.empty (α := ℕ)).addTriple 0 (0, 1, 2)).store.indexP 1 =
        some ip ∧ 0 ∈ ip) ∧
    (∃ io, mlookup ((TripleStore.empty (α := ℕ)).addTriple 0 (0, 1, 2)).store.indexO 2 =
        some io ∧ 0 ∈ io) ∧
    0 ∈ ((TripleStore.empty (α := ℕ)).addTriple 0 (0, 1, 2)).store.allIDs) :=
  ⟨by decide,
   addTriple_containment_spec TripleStore.empty 0 (0, 1, 2) (by decide)⟩

/-- Claim C3: on a reachable (well-formed) store state, `has` is true exactly
when a structurally equal triple is stored; the nested size comparison of
`findInIndices` always selects one of the three candidate sets and one of
minimal size; and when any of the three index lookups is absent, `has`
returns `false` without scanning. -/
theorem has_lookup_spec {α : Type} [DecidableEq α]
    (g : TripleStore α) (n : ℕ) (t : Triple α) (hwf : WF g n) :
    (g.has t = true ↔ stored g t) ∧
    (∀ s p o : TripleIds,
      ((selectMin s p o).card ≤ s.card ∧ (selectMin s p o).card ≤ p.card ∧
        (selectMin s p o).card ≤ o.card) ∧
      (selectMin s p o = s ∨ selectMin s p o = p ∨ selectMin s p o = o)) ∧
    ((mlookup g.indexS t.1 = none ∨ mlookup g.indexP t.2.1 = none ∨
        mlookup g.indexO t.2.2 = none) → g.has t = false) := by
  refine ⟨has_iff_stored hwf,
    fun s p o => ⟨selectMin_card_le s p o, selectMin_eq_or s p o⟩,
    fun h => ?_⟩
  rcases h with h | h | h <;> rw [TripleStore.has, h]
  · exact findInIndices_none_s
  · exact findInIndices_none_p
  · exact findInIndices_none_o

theorem has_lookup_spec_witness :
    WF exampleStore 1 ∧
    ((exampleStore.has (0, 1, 2) = true ↔ stored exampleStore (0, 1, 2)) ∧
    (∀ s p o : TripleIds,
      ((selectMin s p o).card ≤ s.card ∧ (selectMin s p o).card ≤ p.card ∧
        (selectMin s p o).card ≤ o.card) ∧
      (selectMin s p o = s ∨ selectMin s p o = p ∨ selectMin s p o = o)) ∧
    ((mlookup exampleStore.indexS 0 = none ∨ mlookup exampleStore.indexP 1 = none ∨
        mlookup exampleStore.indexO 2 = none) → exampleStore.has (0, 1, 2) = false)) :=
  ⟨wf_exampleStore, has_lookup_spec exampleStore 1 (0, 1, 2) wf_exampleStore⟩

/-- Claim C5, counterexample: identifiers are not store-scoped.  With the
process-global counter at 1 (after another store's insertion), the first
triple added to a freshly constructed store is stored under identifier 1,
not identifier 0. -/
theorem next_id_store_scoped_cex :
    mlookup ((TripleStore.empty (α := ℕ)).addTriple
        (((TripleStore.empty (α := ℕ)).addTriple 0 (0, 0, 0)).nextID)
        (1, 1, 1)).store.triples 0 = none ∧
    mlookup ((TripleStore.empty (α := ℕ)).addTriple
        (((TripleStore.empty (α := ℕ)).addTriple 0 (0, 0, 0)).nextID)
        (1, 1, 1)).store.triples 1 = some (1, 1, 1) ∧
    ((TripleStore.empty (α := ℕ)).addTriple
        (((TripleStore.empty (α := ℕ)).addTriple 0 (0, 0, 0)).nextID)
        (1, 1, 1)).store.allIDs ≠ {0} := by
  decide

/-- Claim C5, amended: the identifier counter `NEXT_ID` is class-static, i.e.
process-scoped and shared by all stores; store construction does not reset
it.  A successful insertion assigns the current counter value as the
identifier and increments the counter exactly once; a duplicate insertion
leaves both the counter and the store unchanged. -/
theorem next_id_process_scoped {α : Type} [DecidableEq α]
    (g : TripleStore α) (n : ℕ) (t : Triple α) :
    ((g.addTriple n t).ok = true →
      (g.addTriple n t).nextID = n + 1 ∧
      mlookup (g.addTriple n t).store.triples n = some t) ∧
    ((g.addTriple n t).ok = false →
      (g.addTriple n t).nextID = n ∧ (g.addTriple n t).store = g) := by
  constructor
  · intro hok
    rw [addTriple_eq_of_not_found (addTriple_ok_not_found hok)]
    exact ⟨rfl, mlookup_mset_self _ _ _⟩
  · intro hok
    by_cases hf : findInIndices g.triples (mlookup g.indexS t.1)
        (mlookup g.indexP t.2.1) (mlookup g.indexO t.2.2) t = true
    · simp [TripleStore.addTriple, hf]
    · rw [Bool.not_eq_true] at hf
      simp [TripleStore.addTriple, hf] at hok

theorem next_id_process_scoped_witness :
    (((TripleStore.empty (α := ℕ)).addTriple 5 (0, 1, 2)).ok = true →
      ((TripleStore.empty (α := ℕ)).addTriple 5 (0, 1, 2)).nextID = 5 + 1 ∧
      mlookup ((TripleStore.empty (α := ℕ)).addTriple 5 (0, 1, 2)).store.triples 5 =
        some (0, 1, 2)) ∧
    (((TripleStore.empty (α := ℕ)).addTriple 5 (0, 1, 2)).ok = false →
      ((TripleStore.empty (α := ℕ)).addTriple 5 (0, 1, 2)).nextID = 5 ∧
      ((TripleStore.empty (α := ℕ)).addTriple 5 (0, 1, 2)).store = TripleStore.empty) :=
  next_id_process_scoped TripleStore.empty 5 (0, 1, 2)

/-- Claim C7: a successful `addTriple` performs exactly four emissions, in
order: the updated global identifier set on the global channel, then the
`{index, key}` update events on the subject, predicate and object
channels, each carrying the updated index set for the triple's field
value; a duplicate `addTriple` performs no emissions. -/
theorem addTriple_emission_order_spec {α : Type} [DecidableEq α]
    (g : TripleStore α) (n : ℕ) (t : Triple α) :
    ((g.addTriple n t).ok = true →
      ∃ A is ip io,
        (g.addTriple n t).emits =
          [Emission.all A, Emission.editS is t.1,
           Emission.editP ip t.2.1, Emission.editO io t.2.2] ∧
        A = (g.addTriple n t).store.allIDs ∧
        mlookup (g.addTriple n t).store.indexS t.1 = some is ∧
        mlookup (g.addTriple n t).store.indexP t.2.1 = some ip ∧
        mlookup (g.addTriple n t).store.indexO t.2.2 = some io) ∧
    ((g.addTriple n t).ok = false → (g.addTriple n t).emits = []) := by
  constructor
  · intro hok
    rw [addTriple_eq_of_not_found (addTriple_ok_not_found hok)]
    exact ⟨_, _, _, _, rfl, rfl, mlookup_mset_self _ _ _,
      mlookup_mset_self _ _ _, mlookup_mset_self _ _ _⟩
  · intro hok
    by_cases hf : findInIndices g.triples (mlookup g.indexS t.1)
        (mlookup g.indexP t.2.1) (mlookup g.indexO t.2.2) t = true
    · simp [TripleStore.addTriple, hf]
    · rw [Bool.not_eq_true] at hf
      simp [TripleStore.addTriple, hf] at hok

theorem addTriple_emission_order_spec_witness :
    (((TripleStore.empty (α := ℕ)).addTriple 0 (3, 4, 5)).ok = true →
      ∃ A is ip io,
        ((TripleStore.empty (α := ℕ)).addTriple 0 (3, 4, 5)).emits =
          [Emission.all A, Emission.editS is 3,
           Emission.editP ip 4, Emission.editO io 5] ∧
        A = ((TripleStore.empty (α := ℕ)).addTriple 0 (3, 4, 5)).store.allIDs ∧
        mlookup ((TripleStore.empty (α := ℕ)).addTriple 0 (3, 4, 5)).store.indexS 3 =
          some is ∧
        mlookup ((TripleStore.empty (α := ℕ)).addTriple 0 (3, 4, 5)).store.indexP 4 =
          some ip ∧
        mlookup ((TripleStore.empty (α := ℕ)).addTriple 0 (3, 4, 5)).store.indexO 5 =
          some io) ∧
    (((TripleStore.empty (α := ℕ)).addTriple 0 (3, 4, 5)).ok = false →
      ((TripleStore.empty (α := ℕ)).addTriple 0 (3, 4, 5)).emits = []) :=
  addTriple_emission_order_spec TripleStore.empty 0 (3, 4, 5)

/-- Claim C4, counterexample: with subject and predicate selections of size 2 and
an object selection of size 1, the inner intersection of the pattern-query
xform still combines the subject and predicate selections — not the two
smallest of the three sets, which would include the object selection. -/
theorem pattern_query_order_cex :
    patternXformInnerArgs {0, 1} {2, 3} {4} = ({0, 1}, {2, 3}) ∧
    ({4} : TripleIds).card < ({0, 1} : TripleIds).card ∧
    ({4} : TripleIds).card < ({2, 3} : TripleIds).card ∧
    patternXformInnerArgs {0, 1} {2, 3} {4} ≠
      smallestPairFirstArgs {0, 1} {2, 3} {4} := by
  decide

/-- Claim C4, amended: whenever any of the three source channels emits, the
combinator recomputes the 3-way set intersection of the latest value from
each source, in the fixed order `(s ∩ p) ∩ o` rather than
smallest-pair-first; the emitted value equals the 3-way intersection
regardless of association order. -/
theorem pattern_query_intersection_spec :
    (∀ (st : SyncState) (c : Chan) (v a b c' : TripleIds),
      (syncStep st c v).1 = ⟨some a, some b, some c'⟩ →
      (syncStep st c v).2 = some (patternXform a b c')) ∧
    (∀ s p o : TripleIds,
      patternXform s p o = s ∩ (p ∩ o) ∧
      patternXform s p o = (p ∩ o) ∩ s ∧
      patternXform s p o = (s ∩ o) ∩ p) := by
  constructor
  · intro st c v a b c' h
    have h' : syncUpdate st c v = ⟨some a, some b, some c'⟩ := h
    simp only [syncStep, h', syncEmit]
  · intro s p o
    refine ⟨?_, ?_, ?_⟩ <;> · ext x; simp [patternXform]; try tauto

theorem pattern_query_intersection_spec_witness :
    (syncStep ⟨none, some {0, 1}, some {1, 2}⟩ Chan.chS {0, 2}).1 =
      ⟨some {0, 2}, some {0, 1}, some {1, 2}⟩ ∧
    (syncStep ⟨none, some {0, 1}, some {1, 2}⟩ Chan.chS {0, 2}).2 =
      some (patternXform {0, 2} {0, 1} {1, 2}) :=
  ⟨by decide,
   pattern_query_intersection_spec.1 ⟨none, some {0, 1}, some {1, 2}⟩
     Chan.chS {0, 2} {0, 2} {0, 1} {1, 2} (by decide)⟩

theorem fieldVal_mem {α : Type} [DecidableEq α]
    {triples : List (ℕ × Triple α)} {idx : List (α × TripleIds)}
    {allIDs : TripleIds} {fld : Triple α → α} {key : Option α} {A : TripleIds}
    (hall : ∀ id, id ∈ allIDs ↔ ∃ u, mlookup triples id = some u)
    (hidx : IdxOK triples idx fld)
    (hA : fieldVal idx allIDs key = some A) (id : ℕ) :
    id ∈ A ↔ ∃ u, mlookup triples id = some u ∧ matchB key (fld u) = true := by
  cases key with
  | none =>
      injection hA with hA
      subst hA
      simp only [matchB, and_true]
      exact hall id
  | some k =>
      rw [fieldVal] at hA
      rw [hidx.1 k A hA id]
      simp [matchB]

theorem inter_fieldVal_eq_matchingIds {α : Type} [DecidableEq α]
    {g : TripleStore α} {n : ℕ} {ps pp po : Option α} {A B C : TripleIds}
    (hwf : WF g n)
    (hA : fieldVal g.indexS g.allIDs ps = some A)
    (hB : fieldVal g.indexP g.allIDs pp = some B)
    (hC : fieldVal g.indexO g.allIDs po = some C) :
    (A ∩ B) ∩ C = matchingIds g ps pp po := by
  ext id
  simp only [Finset.mem_inter, matchingIds, Finset.mem_filter]
  rw [fieldVal_mem hwf.all_iff hwf.idxS hA id,
    fieldVal_mem hwf.all_iff hwf.idxP hB id,
    fieldVal_mem hwf.all_iff hwf.idxO hC id]
  constructor
  · rintro ⟨⟨⟨u, hu, hmS⟩, v, hv, hmP⟩, w, hw, hmO⟩
    rw [hu] at hv hw
    injection hv with hv
    injection hw with hw
    subst hv
    subst hw
    refine ⟨(hwf.all_iff id).mpr ⟨u, hu⟩, ?_⟩
    rw [hu]
    simp only [matchesPatB, Bool.and_eq_true]
    exact ⟨⟨hmS, hmP⟩, hmO⟩
  · rintro ⟨hid, hm⟩
    obtain ⟨u, hu⟩ := (hwf.all_iff id).mp hid
    rw [hu] at hm
    simp only [matchesPatB, Bool.and_eq_true] at hm
    exact ⟨⟨⟨u, hu, hm.1.1⟩, u, hu, hm.1.2⟩, u, hu, hm.2⟩

/-- Claim C6: for a pattern query with at least one concrete field over a store
already containing a matching fact, the wiring-plus-replay phase emits the
set of identifiers of all currently matching facts — a nonempty initial
result, the same as a query subscribed before the insertions — as its
single replay emission (the re-pushes run in subject, predicate, object
order). -/
theorem pattern_query_replay_spec {α : Type} [DecidableEq α]
    (g : TripleStore α) (n : ℕ) (ps pp po : Option α) (hwf : WF g n)
    (hcon : ¬(ps = none ∧ pp = none ∧ po = none))
    (hmat : ∃ i u, mlookup g.triples i = some u ∧ matchesPatB ps pp po u = true) :
    (addPatternQueryInit g ps pp po).2 = [matchingIds g ps pp po] ∧
    (matchingIds g ps pp po).Nonempty := by
  obtain ⟨i, u, hu, hm⟩ := hmat
  have hiAll : i ∈ g.allIDs := (hwf.all_iff i).mpr ⟨u, hu⟩
  have hne : ¬ g.allIDs = ∅ := fun h => by
    rw [h] at hiAll
    exact absurd hiAll (Finset.not_mem_empty i)
  have hNE : (matchingIds g ps pp po).Nonempty :=
    ⟨i, Finset.mem_filter.mpr ⟨hiAll, by rw [hu]; exact hm⟩⟩
  simp only [matchesPatB, Bool.and_eq_true] at hm
  have hS : ∀ k, ps = some k → ∃ S, mlookup g.indexS k = some S := by
    intro k hk
    cases hSl : mlookup g.indexS k with
    | none =>
        exfalso
        apply hwf.idxS.2 k hSl i u hu
        have h1 := hm.1.1
        rw [hk] at h1
        simpa [matchB] using h1
    | some S => exact ⟨S, rfl⟩
  have hP : ∀ k, pp = some k → ∃ S, mlookup g.indexP k = some S := by
    intro k hk
    cases hSl : mlookup g.indexP k with
    | none =>
        exfalso
        apply hwf.idxP.2 k hSl i u hu
        have h1 := hm.1.2
        rw [hk] at h1
        simpa [matchB] using h1
    | some S => exact ⟨S, rfl⟩
  have hO : ∀ k, po = some k → ∃ S, mlookup g.indexO k = some S := by
    intro k hk
    cases hSl : mlookup g.indexO k with
    | none =>
        exfalso
        apply hwf.idxO.2 k hSl i u hu
        have h1 := hm.2
        rw [hk] at h1
        simpa [matchB] using h1
    | some S => exact ⟨S, rfl⟩
  refine ⟨?_, hNE⟩
  rcases ps with _ | a <;> rcases pp with _ | b <;> rcases po with _ | c
  · exact absurd ⟨rfl, rfl, rfl⟩ hcon
  · obtain ⟨Sc, hSc⟩ := hO c rfl
    simp only [addPatternQueryInit, initialLast, if_neg hne, submitStep,
      hSc, syncStep, syncUpdate, syncEmit, patternXform,
      List.reduceOption_cons_of_some, List.reduceOption_cons_of_none,
      List.reduceOption_nil]
    congr 1
    exact inter_fieldVal_eq_matchingIds hwf rfl rfl hSc
  · obtain ⟨Sb, hSb⟩ := hP b rfl
    simp only [addPatternQueryInit, initialLast, if_neg hne, submitStep,
      hSb, syncStep, syncUpdate, syncEmit, patternXform,
      List.reduceOption_cons_of_some, List.reduceOption_cons_of_none,
      List.reduceOption_nil]
    congr 1
    exact inter_fieldVal_eq_matchingIds hwf rfl hSb rfl
  · obtain ⟨Sb, hSb⟩ := hP b rfl
    obtain ⟨Sc, hSc⟩ := hO c rfl
    simp only [addPatternQueryInit, initialLast, if_neg hne, submitStep,
      hSb, hSc, syncStep, syncUpdate, syncEmit, patternXform,
      List.reduceOption_cons_of_some, List.reduceOption_cons_of_none,
      List.reduceOption_nil]
    congr 1
    exact inter_fieldVal_eq_matchingIds hwf rfl hSb hSc
  · obtain ⟨Sa, hSa⟩ := hS a rfl
    simp only [addPatternQueryInit, initialLast, if_neg hne, submitStep,
      hSa, syncStep, syncUpdate, syncEmit, patternXform,
      List.reduceOption_cons_of_some, List.reduceOption_cons_of_none,
      List.reduceOption_nil]
    congr 1
    exact inter_fieldVal_eq_matchingIds hwf hSa rfl rfl
  · obtain ⟨Sa, hSa⟩ := hS a rfl
    obtain ⟨Sc, hSc⟩ := hO c rfl
    simp only [addPatternQueryInit, initialLast, if_neg hne, submitStep,
      hSa, hSc, syncStep, syncUpdate, syncEmit, patternXform,
      List.reduceOption_cons_of_some, List.reduceOption_cons_of_none,
      List.reduceOption_nil]
    congr 1
    exact inter_fieldVal_eq_matchingIds hwf hSa rfl hSc
  · obtain ⟨Sa, hSa⟩ := hS a rfl
    obtain ⟨Sb, hSb⟩ := hP b rfl
    simp only [addPatternQueryInit, initialLast, if_neg hne, submitStep,
      hSa, hSb, syncStep, syncUpdate, syncEmit, patternXform,
      List.reduceOption_cons_of_some, List.reduceOption_cons_of_none,
      List.reduceOption_nil]
    congr 1
    exact inter_fieldVal_eq_matchingIds hwf hSa hSb rfl
  · obtain ⟨Sa, hSa⟩ := hS a rfl
    obtain ⟨Sb, hSb⟩ := hP b rfl
    obtain ⟨Sc, hSc⟩ := hO c rfl
    simp only [addPatternQueryInit, initialLast, if_neg hne, submitStep,
      hSa, hSb, hSc, syncStep, syncUpdate, syncEmit, patternXform,
      List.reduceOption_cons_of_some, List.reduceOption_cons_of_none,
      List.reduceOption_nil]
    congr 1
    exact inter_fieldVal_eq_matchingIds hwf hSa hSb hSc

theorem pattern_query_replay_spec_witness :
    WF exampleStore 1 ∧
    (¬((some 0 : Option ℕ) = none ∧ (none : Option ℕ) = none ∧
        (none : Option ℕ) = none)) ∧
    (∃ i u, mlookup exampleStore.triples i = some u ∧
      matchesPatB (some 0) none none u = true) ∧
    ((addPatternQueryInit exampleStore (some 0) none none).2 =
        [matchingIds exampleStore (some 0) none none] ∧
      (matchingIds exampleStore (some 0) none none).Nonempty) :=
  ⟨wf_exampleStore, by decide, ⟨0, (0, 1, 2), rfl, by decide⟩,
   pattern_query_replay_spec exampleStore 1 (some 0) none none
     wf_exampleStore (by decide) ⟨0, (0, 1, 2), rfl, by decide⟩⟩

theorem syncEmit_none_left (lp lo : Option TripleIds) :
    syncEmit ⟨none, lp, lo⟩ = none := by
  cases lp <;> cases lo <;> rfl

theorem syncEmit_none_mid (ls lo : Option TripleIds) :
    syncEmit ⟨ls, none, lo⟩ = none := by
  cases ls <;> cases lo <;> rfl

theorem syncEmit_none_right (ls lp : Option TripleIds) :
    syncEmit ⟨ls, lp, none⟩ = none := by
  cases ls <;> cases lp <;> rfl

theorem submitStep_absent {α : Type} [DecidableEq α]
    {idx : List (α × TripleIds)} {k : α} (st : SyncState) (c : Chan)
    (h : mlookup idx k = none) : submitStep idx st c (some k) = (st, none) := by
  simp [submitStep, h]

theorem submitStep_fst_ls {α : Type} [DecidableEq α]
    (idx : List (α × TripleIds)) (st : SyncState) (c : Chan) (key : Option α)
    (hc : c ≠ Chan.chS) : (submitStep idx st c key).1.ls = st.ls := by
  cases key with
  | none => rfl
  | some k =>
      cases h : mlookup idx k with
      | none => rw [submitStep_absent st c h]
      | some v =>
          cases c with
          | chS => exact absurd rfl hc
          | chP => simp [submitStep, h, syncStep, syncUpdate]
          | chO => simp [submitStep, h, syncStep, syncUpdate]

theorem submitStep_fst_lp {α : Type} [DecidableEq α]
    (idx : List (α × TripleIds)) (st : SyncState) (c : Chan) (key : Option α)
    (hc : c ≠ Chan.chP) : (submitStep idx st c key).1.lp = st.lp := by
  cases key with
  | none => rfl
  | some k =>
      cases h : mlookup idx k with
      | none => rw [submitStep_absent st c h]
      | some v =>
          cases c with
          | chP => exact absurd rfl hc
          | chS => simp [submitStep, h, syncStep, syncUpdate]
          | chO => simp [submitStep, h, syncStep, syncUpdate]

theorem submitStep_fst_lo {α : Type} [DecidableEq α]
    (idx : List (α × TripleIds)) (st : SyncState) (c : Chan) (key : Option α)
    (hc : c ≠ Chan.chO) : (submitStep idx st c key).1.lo = st.lo := by
  cases key with
  | none => rfl
  | some k =>
      cases h : mlookup idx k with
      | none => rw [submitStep_absent st c h]
      | some v =>
          cases c with
          | chO => exact absurd rfl hc
          | chS => simp [submitStep, h, syncStep, syncUpdate]
          | chP => simp [submitStep, h, syncStep, syncUpdate]

theorem submitStep_snd_ls_none {α : Type} [DecidableEq α]
    (idx : List (α × TripleIds)) (st : SyncState) (c : Chan) (key : Option α)
    (h : st.ls = none) (hc : c ≠ Chan.chS) :
    (submitStep idx st c key).2 = none := by
  cases key with
  | none => rfl
  | some k =>
      cases hl : mlookup idx k with
      | none => rw [submitStep_absent st c hl]
      | some v =>
          obtain ⟨ls, lp, lo⟩ := st
          have hls : ls = none := h
          subst hls
          cases c with
          | chS => exact absurd rfl hc
          | chP => simp [submitStep, hl, syncStep, syncUpdate, syncEmit_none_left]
          | chO => simp [submitStep, hl, syncStep, syncUpdate, syncEmit_none_left]

theorem submitStep_snd_lp_none {α : Type} [DecidableEq α]
    (idx : List (α × TripleIds)) (st : SyncState) (c : Chan) (key : Option α)
    (h : st.lp = none) (hc : c ≠ Chan.chP) :
    (submitStep idx st c key).2 = none := by
  cases key with
  | none => rfl
  | some k =>
      cases hl : mlookup idx k with
      | none => rw [submitStep_absent st c hl]
      | some v =>
          obtain ⟨ls, lp, lo⟩ := st
          have hlp : lp = none := h
          subst hlp
          cases c with
          | chP => exact absurd rfl hc
          | chS => simp [submitStep, hl, syncStep, syncUpdate, syncEmit_none_mid]
          | chO => simp [submitStep, hl, syncStep, syncUpdate, syncEmit_none_mid]

theorem submitStep_snd_lo_none {α : Type} [DecidableEq α]
    (idx : List (α × TripleIds)) (st : SyncState) (c : Chan) (key : Option α)
    (h : st.lo = none) (hc : c ≠ Chan.chO) :
    (submitStep idx st c key).2 = none := by
  cases key with
  | none => rfl
  | some k =>
      cases hl : mlookup idx k with
      | none => rw [submitStep_absent st c hl]
      | some v =>
          obtain ⟨ls, lp, lo⟩ := st
          have hlo : lo = none := h
          subst hlo
          cases c with
          | chO => exact absurd rfl hc
          | chS => simp [submitStep, hl, syncStep, syncUpdate, syncEmit_none_right]
          | chP => simp [submitStep, hl, syncStep, syncUpdate, syncEmit_none_right]

/-- Claim C10: for a pattern query with a concrete field whose value has no
index entry at wiring time, the replay helper skips that field, its sync
source never receives a value during replay, and the query performs no
initial emission at all — not even an empty set; the source stays without
a value until a later insertion fills it. -/
theorem pattern_query_no_initial_emission {α : Type} [DecidableEq α]
    (g : TripleStore α) (ps pp po : Option α) :
    (∀ k, ps = some k → mlookup g.indexS k = none →
      (addPatternQueryInit g ps pp po).2 = [] ∧
      (addPatternQueryInit g ps pp po).1.ls = none) ∧
    (∀ k, pp = some k → mlookup g.indexP k = none →
      (addPatternQueryInit g ps pp po).2 = [] ∧
      (addPatternQueryInit g ps pp po).1.lp = none) ∧
    (∀ k, po = some k → mlookup g.indexO k = none →
      (addPatternQueryInit g ps pp po).2 = [] ∧
      (addPatternQueryInit g ps pp po).1.lo = none) := by
  refine ⟨?_, ?_, ?_⟩
  · intro k hk hlk
    subst hk
    simp only [addPatternQueryInit]
    set st0 : SyncState :=
      ⟨initialLast g (some k), initialLast g pp, initialLast g po⟩ with hst0
    have h1a : (submitStep g.indexS st0 Chan.chS (some k)).1 = st0 := by
      rw [submitStep_absent st0 Chan.chS hlk]
    have h1b : (submitStep g.indexS st0 Chan.chS (some k)).2 = none := by
      rw [submitStep_absent st0 Chan.chS hlk]
    have hls : st0.ls = none := by rw [hst0]; rfl
    have h2b : (submitStep g.indexP st0 Chan.chP pp).2 = none :=
      submitStep_snd_ls_none _ _ _ _ hls (by decide)
    have h2a : (submitStep g.indexP st0 Chan.chP pp).1.ls = none := by
      rw [submitStep_fst_ls _ _ _ _ (by decide)]
      exact hls
    have h3b : (submitStep g.indexO (submitStep g.indexP st0 Chan.chP pp).1
        Chan.chO po).2 = none :=
      submitStep_snd_ls_none _ _ _ _ h2a (by decide)
    have h3a : (submitStep g.indexO (submitStep g.indexP st0 Chan.chP pp).1
        Chan.chO po).1.ls = none := by
      rw [submitStep_fst_ls _ _ _ _ (by decide)]
      exact h2a
    refine ⟨?_, ?_⟩
    · simp only [h1a, h1b, h2b, h3b, List.reduceOption_cons_of_none,
        List.reduceOption_nil]
    · simp only [h1a, h3a]
  · intro k hk hlk
    subst hk
    simp only [addPatternQueryInit]
    set st0 : SyncState :=
      ⟨initialLast g ps, initialLast g (some k), initialLast g po⟩ with hst0
    have hlp : st0.lp = none := by rw [hst0]; rfl
    have h1b : (submitStep g.indexS st0 Chan.chS ps).2 = none :=
      submitStep_snd_lp_none _ _ _ _ hlp (by decide)
    have h1a : (submitStep g.indexS st0 Chan.chS ps).1.lp = none := by
      rw [submitStep_fst_lp _ _ _ _ (by decide)]
      exact hlp
    have h2a : (submitStep g.indexP (submitStep g.indexS st0 Chan.chS ps).1
        Chan.chP (some k)).1 = (submitStep g.indexS st0 Chan.chS ps).1 := by
      rw [submitStep_absent _ Chan.chP hlk]
    have h2b : (submitStep g.indexP (submitStep g.indexS st0 Chan.chS ps).1
        Chan.chP (some k)).2 = none := by
      rw [submitStep_absent _ Chan.chP hlk]
    have h3b : (submitStep g.indexO (submitStep g.indexS st0 Chan.chS ps).1
        Chan.chO po).2 = none :=
      submitStep_snd_lp_none _ _ _ _ h1a (by decide)
    have h3a : (submitStep g.indexO (submitStep g.indexS st0 Chan.chS ps).1
        Chan.chO po).1.lp = none := by
      rw [submitStep_fst_lp _ _ _ _ (by decide)]
      exact h1a
    refine ⟨?_, ?_⟩
    · simp only [h2a, h1b, h2b, h3b, List.reduceOption_cons_of_none,
        List.reduceOption_nil]
    · simp only [h2a, h3a]
  · intro k hk hlk
    subst hk
    simp only [addPatternQueryInit]
    set st0 : SyncState :=
      ⟨initialLast g ps, initialLast g pp, initialLast g (some k)⟩ with hst0
    have hlo : st0.lo = none := by rw [hst0]; rfl
    have h1b : (submitStep g.indexS st0 Chan.chS ps).2 = none :=
      submitStep_snd_lo_none _ _ _ _ hlo (by decide)
    have h1a : (submitStep g.indexS st0 Chan.chS ps).1.lo = none := by
      rw [submitStep_fst_lo _ _ _ _ (by decide)]
      exact hlo
    have h2b : (submitStep g.indexP (submitStep g.indexS st0 Chan.chS ps).1
        Chan.chP pp).2 = none :=
      submitStep_snd_lo_none _ _ _ _ h1a (by decide)
    have h2a : (submitStep g.indexP (submitStep g.indexS st0 Chan.chS ps).1
        Chan.chP pp).1.lo = none := by
      rw [submitStep_fst_lo _ _ _ _ (by decide)]
      exact h1a
    have h3a : (submitStep g.indexO (submitStep g.indexP
        (submitStep g.indexS st0 Chan.chS ps).1 Chan.chP pp).1
        Chan.chO (some k)).1 = (submitStep g.indexP
        (submitStep g.indexS st0 Chan.chS ps).1 Chan.chP pp).1 := by
      rw [submitStep_absent _ Chan.chO hlk]
    have h3b : (submitStep g.indexO (submitStep g.indexP
        (submitStep g.indexS st0 Chan.chS ps).1 Chan.chP pp).1
        Chan.chO (some k)).2 = none := by
      rw [submitStep_absent _ Chan.chO hlk]
    refine ⟨?_, ?_⟩
    · simp only [h1b, h2b, h3b, List.reduceOption_cons_of_none,
        List.reduceOption_nil]
    · simp only [h3a, h2a]

theorem pattern_query_no_initial_emission_witness :
    mlookup exampleStore.indexS 7 = none ∧
    ((addPatternQueryInit exampleStore (some 7) none none).2 = [] ∧
      (addPatternQueryInit exampleStore (some 7) none none).1.ls = none) :=
  ⟨by decide,
   (pattern_query_no_initial_emission exampleStore (some 7) none none).1
     7 rfl (by decide)⟩

/-- Claim C8: on every update from either side, the join combinator recomputes
the natural join of the two latest solution sets — the merged records of
the compatible pairs, where compatible means the shared variable names
bind equal values — and emits exactly when the join is nonempty: an
update whose join is empty produces no emission at all. -/
theorem query_join_spec {α : Type} [DecidableEq α] :
    (∀ (st : JoinState α) (side : JSide) (v A B : Finset (Sol α)),
      (joinStep st side v).1 = ⟨some A, some B⟩ →
      ((natJoin A B).Nonempty → (joinStep st side v).2 = some (natJoin A B)) ∧
      (natJoin A B = ∅ → (joinStep st side v).2 = none)) ∧
    (∀ (A B : Finset (Sol α)) (r : Sol α),
      r ∈ natJoin A B ↔
        ∃ a ∈ A, ∃ b ∈ B, compatibleSol a b = true ∧ r = mergeSol a b) := by
  constructor
  · intro st side v A B h
    obtain ⟨la, lb⟩ := st
    cases side with
    | ja =>
        simp only [joinStep, JoinState.mk.injEq, Option.some_inj] at h
        obtain ⟨h1, h2⟩ := h
        subst h1
        subst h2
        constructor
        · intro hne
          simp only [joinStep, joinXform]
          rw [if_pos (Finset.card_pos.mpr hne)]
        · intro hempty
          simp only [joinStep, joinXform]
          rw [if_neg (by simp [hempty])]
    | jb =>
        simp only [joinStep, JoinState.mk.injEq, Option.some_inj] at h
        obtain ⟨h1, h2⟩ := h
        subst h1
        subst h2
        constructor
        · intro hne
          simp only [joinStep, joinXform]
          rw [if_pos (Finset.card_pos.mpr hne)]
        · intro hempty
          simp only [joinStep, joinXform]
          rw [if_neg (by simp [hempty])]
  · intro A B r
    simp only [natJoin, Finset.mem_image, Finset.mem_filter,
      Finset.mem_product]
    constructor
    · rintro ⟨⟨a, b⟩, ⟨⟨ha, hb⟩, hc⟩, hr⟩
      exact ⟨a, ha, b, hb, hc, hr.symm⟩
    · rintro ⟨a, ha, b, hb, hc, hr⟩
      exact ⟨⟨a, b⟩, ⟨⟨ha, hb⟩, hc⟩, hr.symm⟩

theorem query_join_spec_witness :
    ((joinStep (⟨some {[("x", (0 : ℕ))]}, none⟩ : JoinState ℕ) JSide.jb
        {[("x", 1)]}).1 = ⟨some {[("x", 0)]}, some {[("x", 1)]}⟩) ∧
    natJoin ({[("x", (0 : ℕ))]} : Finset (Sol ℕ)) {[("x", 1)]} = ∅ ∧
    (joinStep (⟨some {[("x", (0 : ℕ))]}, none⟩ : JoinState ℕ) JSide.jb
        {[("x", 1)]}).2 = none :=
  ⟨by decide, by decide,
   ((query_join_spec.1 ⟨some {[("x", (0 : ℕ))]}, none⟩ JSide.jb
       {[("x", 1)]} {[("x", 0)]} {[("x", 1)]} (by decide)).2 (by decide))⟩

/-- Claim C9: a parametric query whose pattern contains no query variable fails
synchronously at construction time with the invalid-argument error, before
any stream is wired; a pattern with at least one query variable raises no
error and yields the constructed query. -/
theorem param_query_validation_spec (s p o : Option String) :
    ((isQVar s = false ∧ isQVar p = false ∧ isQVar o = false) →
      addParamQuery s p o =
        Except.error "at least 1 query variable is required in pattern") ∧
    ((isQVar s = true ∨ isQVar p = true ∨ isQVar o = true) →
      ∃ q, addParamQuery s p o = Except.ok q) := by
  constructor
  · rintro ⟨h1, h2, h3⟩
    simp [addParamQuery, qvarResolver, h1, h2, h3]
  · intro h
    have hb : (isQVar s || isQVar p || isQVar o) = true := by
      rcases h with h | h | h <;> simp [h]
    simp only [addParamQuery, qvarResolver, hb, if_pos]
    exact ⟨_, rfl⟩

theorem param_query_validation_spec_witness :
    (isQVar (some "x") = false ∧ isQVar (some "y") = false ∧
      isQVar (none : Option String) = false) ∧
    addParamQuery (some "x") (some "y") none =
      Except.error "at least 1 query variable is required in pattern" ∧
    isQVar (some "?a") = true ∧
    (∃ q, addParamQuery (some "?a") (some "friend") (some "?b") =
      Except.ok q) :=
  ⟨⟨by decide, by decide, rfl⟩,
   (param_query_validation_spec (some "x") (some "y") none).1
     ⟨by decide, by decide, rfl⟩,
   by decide,
   (param_query_validation_spec (some "?a") (some "friend") (some "?b")).2
     (Or.inl (by decide))⟩
